import Mathlib

/-!
# Verification of the `EmojiLikeArbiter` leader-election protocol

Shallow embedding of `src/core/limit/arbiter.py`.  The arbiter decides, among
several bot instances observing the same message, which single instance may
perform an expensive action.  It communicates only through an emoji-reaction
channel: a claim tag (emoji 282) and a confirmation tag (emoji 355).

The embedding has three layers:

* pure helpers (`parse_event_context`, `decide_order`, `fetch_users`,
  `has_feedback`) translated directly from the Python source;
* an oracle model of a single `compete` run: the channel responses a run
  receives are given up front by an `Oracle`, and `competeRun` replays the
  control flow of `EmojiLikeArbiter.compete` over them, additionally
  recording the trace of channel calls it issues;
* a small-step interleaving model (`pstep`/`gstep`/`run`) of several
  participants sharing one reliable channel, used for the concurrency
  property.

Real-time waits (`_WAIT_SEC`, `_FEEDBACK_WAIT_SEC`) have no local semantic
content; their effect (arbitrary relative timing of participants) is captured
by the free choice of oracle responses resp. schedules.
-/

namespace Arbiter

/-- Dynamic (Python-style) values appearing in raw event envelopes. -/
inductive PyVal where
  | vint (i : Int)
  | vfloat (q : Rat)
  | vstr (s : String)
  | vnone
deriving DecidableEq, Repr

/-- Python `int(x)`: identity on ints, truncation toward zero on floats
(modelled as rationals), digit parsing on strings; any other argument raises,
modelled as `none`. -/
def pyInt : PyVal → Option Int
  | .vint i => some i
  | .vfloat q => some (Int.tdiv q.num (q.den : Int))
  | .vstr s => s.toInt?
  | .vnone => none

/-- `event.message_obj`: the message id as a raw dynamic value, and the raw
envelope, which is `none` when `raw_message` is not a dict and otherwise an
association list of string keys to dynamic values. -/
structure MessageObj where
  message_id : PyVal
  raw_message : Option (List (String × PyVal))
deriving DecidableEq, Repr

/-- The slice of the incoming event read by the arbiter: `message_obj` and
the value returned by `event.get_self_id()`. -/
structure Event where
  message_obj : MessageObj
  self_id : PyVal
deriving DecidableEq, Repr

/-- `_ArbiterContext`: the immutable context of one arbitration run. -/
structure ArbiterContext where
  message_id : Int
  msg_time : Int
  self_id : Int
deriving DecidableEq, Repr

/-- `EmojiLikeArbiter._TIME_SLICE`. -/
def TIME_SLICE : Int := 60

/-- `EmojiLikeArbiter._parse_event_context`: `int(message_id)` and
`int(self_id)` must both succeed, `raw_message` must be a dict, and its
`"time"` entry must be an `int` or a `float` (then truncated by `int(...)`).
Any failure yields `none`. -/
def parse_event_context (e : Event) : Option ArbiterContext :=
  match pyInt e.message_obj.message_id, pyInt e.self_id with
  | some message_id, some self_id =>
    match e.message_obj.raw_message with
    | none => none
    | some raw =>
      match raw.lookup "time" with
      | some (.vint t) => some ⟨message_id, t, self_id⟩
      | some (.vfloat q) => some ⟨message_id, Int.tdiv q.num (q.den : Int), self_id⟩
      | _ => none
  | _, _ => none

/-- Python `sorted(set(users))`: the canonically ascending list of the
distinct participant ids. -/
def sortedParticipants (users : List Int) : List Int :=
  List.insertionSort (· ≤ ·) users.dedup

/-- `EmojiLikeArbiter._decide_order`.  Python `//` is floor division
(`Int.fdiv`) and `%` with the positive divisor `len(participants)` yields a
value in `[0, n)`, matching `Int.emod`.  The `except` branch (reached exactly
when the participant set is empty) returns `[]`. -/
def decide_order (users : List Int) (msg_time : Int) : List Int :=
  let participants := sortedParticipants users
  if participants = [] then []
  else
    let n := participants.length
    let base := (Int.fdiv msg_time TIME_SLICE % (n : Int)).toNat
    (List.range n).map fun i => participants.getD ((base + i) % n) 0

/-- A raw `fetch_emoji_like` outcome: `.error` models a raised exception;
otherwise the response may be `None` (outer `Option`), its
`emojiLikesList` field may be missing or `None` (inner `Option`), and each
item contributes its `item["tinyId"]` lookup (`none` models a missing key). -/
abbrev FetchResp := Except Unit (Option (Option (List (Option PyVal))))

/-- Item loop of `_fetch_users`: `int(item["tinyId"])`, skipping items whose
lookup or conversion raises. -/
def parse_users (likes : List (Option PyVal)) : List Int :=
  likes.filterMap fun item => item.bind pyInt

/-- `EmojiLikeArbiter._fetch_users`: a raised fetch is absorbed into `[]`;
`(resp or {}).get("emojiLikesList") or []` is the double `getD`. -/
def fetch_users (resp : FetchResp) : List Int :=
  match resp with
  | .error _ => []
  | .ok r => parse_users ((r.getD none).getD [])

/-- `EmojiLikeArbiter._has_feedback`: a raised fetch is absorbed into
`false`; otherwise `bool(likes)` on the raw list. -/
def has_feedback (resp : FetchResp) : Bool :=
  match resp with
  | .error _ => false
  | .ok r => !((r.getD none).getD []).isEmpty

/-- The channel responses one `compete` run receives, fixed up front:
the phase-1 and phase-4 `fetch_emoji_like` results, the phase-2
`set_msg_emoji_like` result, and the per-iteration phase-6
`fetch_emoji_like` results.  The phase-6 confirmation mark has no response
field: its exception is swallowed (source lines 282–285), so its outcome
never influences the run's control flow. -/
structure Oracle where
  fetch1 : FetchResp
  mark2 : Except Unit Unit
  fetch4 : FetchResp
  fetch6 : Nat → FetchResp

/-- One channel interaction issued by a `compete` run. -/
inductive Call where
  | fetchClaim1
  | markClaim
  | fetchClaim4
  | markConfirm (i : Nat)
  | fetchConfirm (i : Nat)
deriving DecidableEq, Repr

/-- Phase 6 of `compete`: walk the order; the candidate that is the local
participant attempts the confirmation mark (recorded in the trace, outcome
swallowed); then everyone observes the confirmation tag and stops on the
first non-empty observation with verdict `candidate == self`. -/
def phase6 (f6 : Nat → FetchResp) (self : Int) : List Int → Nat → Bool × List Call
  | [], _ => (false, [])
  | c :: rest, i =>
    let mk : List Call := if c = self then [Call.markConfirm i] else []
    if has_feedback (f6 i) then (decide (c = self), mk ++ [Call.fetchConfirm i])
    else
      let r := phase6 f6 self rest (i + 1)
      (r.1, mk ++ [Call.fetchConfirm i] ++ r.2)

/-- `EmojiLikeArbiter.compete` over an oracle, returning the verdict together
with the trace of channel calls issued. -/
def competeRun (o : Oracle) (e : Event) : Bool × List Call :=
  match parse_event_context e with
  | none => (false, [])
  | some ctx =>
    let users1 := fetch_users o.fetch1
    if users1 ≠ [] then (false, [Call.fetchClaim1])
    else
      match o.mark2 with
      | .error _ => (false, [Call.fetchClaim1, Call.markClaim])
      | .ok _ =>
        let users := fetch_users o.fetch4
        if users = [] then (true, [Call.fetchClaim1, Call.markClaim, Call.fetchClaim4])
        else
          let order := decide_order users ctx.msg_time
          if order = [] then (false, [Call.fetchClaim1, Call.markClaim, Call.fetchClaim4])
          else
            let r := phase6 o.fetch6 ctx.self_id order 0
            (r.1, [Call.fetchClaim1, Call.markClaim, Call.fetchClaim4] ++ r.2)

/-- The boolean verdict of `EmojiLikeArbiter.compete`. -/
def compete (o : Oracle) (e : Event) : Bool := (competeRun o e).1

/-- `competeRun` with the phase-5 defensive branch (`if not order: return
False`) removed; used to show that branch is unreachable. -/
def competeRunNoGuard (o : Oracle) (e : Event) : Bool × List Call :=
  match parse_event_context e with
  | none => (false, [])
  | some ctx =>
    let users1 := fetch_users o.fetch1
    if users1 ≠ [] then (false, [Call.fetchClaim1])
    else
      match o.mark2 with
      | .error _ => (false, [Call.fetchClaim1, Call.markClaim])
      | .ok _ =>
        let users := fetch_users o.fetch4
        if users = [] then (true, [Call.fetchClaim1, Call.markClaim, Call.fetchClaim4])
        else
          let r := phase6 o.fetch6 ctx.self_id (decide_order users ctx.msg_time) 0
          (r.1, [Call.fetchClaim1, Call.markClaim, Call.fetchClaim4] ++ r.2)

/-!
## Shared-channel interleaving model

Several participants run `compete` concurrently against one shared channel.
The channel is modelled as reliable and linearizable — every write lands
immediately and every read returns the exact current mark sets — which is the
most favourable channel behaviour for the protocol.  Each scheduler step lets
one participant perform its next atomic channel interaction (plus the local
computation that follows it).  The real-time waits only influence *when* a
participant's next interaction happens relative to the others, which is
exactly the freedom the schedule provides.
-/

/-- The shared channel: who has marked the claim tag (282) and the
confirmation tag (355), in mark order. -/
structure Channel where
  claims : List Int
  confirms : List Int
deriving DecidableEq, Repr

/-- Local control state of one participant between channel interactions. -/
inductive PState where
  | phase1
  | phase2
  | phase4
  | confirmStep (rem : List Int)
  | observeStep (rem : List Int)
  | done (v : Bool)
deriving DecidableEq, Repr

/-- One atomic step of a participant with id `self` and event time `mt`
against channel state `ch`, following `EmojiLikeArbiter.compete`:
phase-1 read, phase-2 claim mark, phase-4 read plus phase-5 order
computation, and for each phase-6 iteration the candidate's confirmation
mark followed by the feedback observation. -/
def pstep (mt : Int) (self : Int) (ch : Channel) : PState → Channel × PState
  | .phase1 => if ch.claims = [] then (ch, .phase2) else (ch, .done false)
  | .phase2 => ({ ch with claims := ch.claims ++ [self] }, .phase4)
  | .phase4 =>
      if ch.claims = [] then (ch, .done true)
      else
        let order := decide_order ch.claims mt
        if order = [] then (ch, .done false) else (ch, .confirmStep order)
  | .confirmStep [] => (ch, .done false)
  | .confirmStep (c :: rest) =>
      if c = self then ({ ch with confirms := ch.confirms ++ [self] }, .observeStep (c :: rest))
      else (ch, .observeStep (c :: rest))
  | .observeStep [] => (ch, .done false)
  | .observeStep (c :: rest) =>
      if ch.confirms = [] then (ch, .confirmStep rest) else (ch, .done (decide (c = self)))
  | .done v => (ch, .done v)

/-- Global state: the shared channel and each participant's id and local
state. -/
structure GState where
  ch : Channel
  procs : List (Int × PState)
deriving DecidableEq, Repr

/-- Scheduler step: participant `pid` performs its next atomic action. -/
def gstep (mt : Int) (g : GState) (pid : Nat) : GState :=
  match g.procs.get? pid with
  | none => g
  | some p =>
      let r := pstep mt p.1 g.ch p.2
      { ch := r.1, procs := g.procs.set pid (p.1, r.2) }

/-- Run a schedule (a list of participant indices) from a global state. -/
def run (mt : Int) (g : GState) (sched : List Nat) : GState :=
  sched.foldl (gstep mt) g

/-- Initial global state for the given participant ids: empty channel, every
participant about to perform its phase-1 read. -/
def initG (ids : List Int) : GState :=
  ⟨⟨[], []⟩, ids.map fun i => (i, PState.phase1)⟩

/-- Number of participants whose `compete` run has ended with verdict
`true`. -/
def winners (g : GState) : Nat :=
  (g.procs.filter fun p => match p.2 with | .done true => true | _ => false).length

/-! ## Structure of `decide_order` -/

lemma sortedParticipants_sorted (users : List Int) :
    List.Sorted (· ≤ ·) (sortedParticipants users) :=
  List.sorted_insertionSort _ _

lemma sortedParticipants_perm_dedup (users : List Int) :
    List.Perm (sortedParticipants users) users.dedup :=
  List.perm_insertionSort _ _

lemma sortedParticipants_nodup (users : List Int) :
    (sortedParticipants users).Nodup :=
  ((sortedParticipants_perm_dedup users).nodup_iff).mpr users.nodup_dedup

lemma sortedParticipants_eq_nil_iff (users : List Int) :
    sortedParticipants users = [] ↔ users = [] := by
  rw [← List.length_eq_zero, (sortedParticipants_perm_dedup users).length_eq,
    List.length_eq_zero, List.dedup_eq_nil]

/-- Two user lists with the same set of distinct values produce the same
canonical participant list. -/
lemma sortedParticipants_eq_of_toFinset_eq {u v : List Int}
    (h : u.toFinset = v.toFinset) : sortedParticipants u = sortedParticipants v := by
  refine List.eq_of_perm_of_sorted ?_ (sortedParticipants_sorted u) (sortedParticipants_sorted v)
  rw [List.perm_ext_iff_of_nodup (sortedParticipants_nodup u) (sortedParticipants_nodup v)]
  intro a
  rw [(sortedParticipants_perm_dedup u).mem_iff, (sortedParticipants_perm_dedup v).mem_iff,
    List.mem_dedup, List.mem_dedup]
  exact List.toFinset.ext_iff.mp h a

lemma base_lt (t : Int) {n : Nat} (hn : 0 < n) :
    (Int.fdiv t TIME_SLICE % (n : Int)).toNat < n := by
  have hn' : (n : Int) ≠ 0 := by exact_mod_cast Nat.pos_iff_ne_zero.mp hn
  have h1 : Int.fdiv t TIME_SLICE % (n : Int) < (n : Int) :=
    Int.emod_lt_of_pos _ (by exact_mod_cast hn)
  have h0 : 0 ≤ Int.fdiv t TIME_SLICE % (n : Int) := Int.emod_nonneg _ hn'
  omega

/-- The rotation kernel: mapping `i ↦ l[(b + i) % n]` over `range n` is the
`b`-rotation of `l`. -/
lemma map_range_getD_rotate (l : List Int) (b : Nat) (hb : b < l.length) :
    ((List.range l.length).map fun i => l.getD ((b + i) % l.length) 0) = l.rotate b := by
  have hn : 0 < l.length := Nat.lt_of_le_of_lt (Nat.zero_le b) hb
  apply List.ext_getElem (by simp [List.length_rotate])
  intro i h1 h2
  have hi : i < l.length := by simpa using h1
  have hmod : (b + i) % l.length < l.length := Nat.mod_lt _ hn
  rw [List.getElem_map, List.getElem_range, List.getElem_rotate,
    List.getD_eq_getElem?_getD, List.getElem?_eq_getElem hmod]
  simp [Nat.add_comm b i]

/-- `_decide_order` on a non-empty user list is the `base`-rotation of the
canonical participant list. -/
lemma decide_order_eq_rotate (users : List Int) (t : Int) (h : users ≠ []) :
    decide_order users t =
      (sortedParticipants users).rotate
        (Int.fdiv t TIME_SLICE % ((sortedParticipants users).length : Int)).toNat := by
  have hne : sortedParticipants users ≠ [] :=
    fun hnil => h ((sortedParticipants_eq_nil_iff users).mp hnil)
  have hn : 0 < (sortedParticipants users).length := List.length_pos.mpr hne
  simp only [decide_order, if_neg hne]
  exact map_range_getD_rotate _ _ (base_lt t hn)

lemma decide_order_ne_nil (users : List Int) (t : Int) (h : users ≠ []) :
    decide_order users t ≠ [] := by
  rw [decide_order_eq_rotate users t h]
  have hne : sortedParticipants users ≠ [] :=
    fun hnil => h ((sortedParticipants_eq_nil_iff users).mp hnil)
  rw [← List.length_pos, List.length_rotate]
  exact List.length_pos.mpr hne

lemma headD_eq_getD (l : List Int) (d : Int) : l.headD d = l.getD 0 d := by
  cases l <;> rfl

/-- The first element of the `b`-rotation of `l` is `l[b]` for `b` in
range. -/
lemma rotate_headD (l : List Int) (b : Nat) (hb : b < l.length) :
    (l.rotate b).headD 0 = l.getD b 0 := by
  have h0 : 0 < (l.rotate b).length := by
    rw [List.length_rotate]; omega
  rw [headD_eq_getD, List.getD_eq_getElem?_getD, List.getD_eq_getElem?_getD,
    List.getElem?_eq_getElem h0, List.getElem?_eq_getElem hb, List.getElem_rotate]
  simp [Nat.mod_eq_of_lt hb]

/-- Shifting the event time by `k` slices advances the rotation base by `k`,
cyclically. -/
lemma base_shift (t : Int) (k n : Nat) (hn : 0 < n) :
    (Int.fdiv (t + (k : Int) * TIME_SLICE) TIME_SLICE % (n : Int)).toNat =
      ((Int.fdiv t TIME_SLICE % (n : Int)).toNat + k) % n := by
  have hn' : (n : Int) ≠ 0 := by exact_mod_cast Nat.pos_iff_ne_zero.mp hn
  have hslice : (0 : Int) ≤ TIME_SLICE := by decide
  have hfd : Int.fdiv (t + (k : Int) * TIME_SLICE) TIME_SLICE =
      Int.fdiv t TIME_SLICE + (k : Int) := by
    rw [Int.fdiv_eq_ediv _ hslice, Int.fdiv_eq_ediv _ hslice,
      Int.add_mul_ediv_right _ _ (by decide : TIME_SLICE ≠ 0)]
  rw [hfd]
  have h0 : 0 ≤ Int.fdiv t TIME_SLICE % (n : Int) := Int.emod_nonneg _ hn'
  calc ((Int.fdiv t TIME_SLICE + (k : Int)) % (n : Int)).toNat
      = ((Int.fdiv t TIME_SLICE % (n : Int) + (k : Int)) % (n : Int)).toNat := by
        rw [Int.emod_add_emod]
    _ = (((((Int.fdiv t TIME_SLICE % (n : Int)).toNat + k : Nat) : Int)) % (n : Int)).toNat := by
        congr 1
        push_cast
        rw [Int.toNat_of_nonneg h0]
    _ = ((((Int.fdiv t TIME_SLICE % (n : Int)).toNat + k) % n : Nat) : Int).toNat := by
        rw [← Int.ofNat_emod]
    _ = ((Int.fdiv t TIME_SLICE % (n : Int)).toNat + k) % n := Int.toNat_ofNat _

/-- C1 --- `_decide_order(users, msg_time)` is the rotation of the canonical
ascending participant list starting at `base = (msg_time // TIME_SLICE) % n`:
it equals `participants.rotate base`, element `i` of the result is
`participants[(base + i) % n]`, and the result depends only on the set of
distinct values of `users` (and on `msg_time`). -/
theorem decide_order_is_rotation (users : List Int) (t : Int) (h : users ≠ []) :
    decide_order users t =
      (sortedParticipants users).rotate
        (Int.fdiv t TIME_SLICE % ((sortedParticipants users).length : Int)).toNat ∧
    (∀ i < (sortedParticipants users).length,
      (decide_order users t).getD i 0 =
        (sortedParticipants users).getD
          (((Int.fdiv t TIME_SLICE % ((sortedParticipants users).length : Int)).toNat + i) %
            (sortedParticipants users).length) 0) ∧
    ∀ users' : List Int, users'.toFinset = users.toFinset →
      decide_order users' t = decide_order users t := by
  have hne : sortedParticipants users ≠ [] :=
    fun hnil => h ((sortedParticipants_eq_nil_iff users).mp hnil)
  have hn : 0 < (sortedParticipants users).length := List.length_pos.mpr hne
  refine ⟨decide_order_eq_rotate users t h, ?_, ?_⟩
  · intro i hi
    have hmap : decide_order users t =
        (List.range (sortedParticipants users).length).map
          (fun j => (sortedParticipants users).getD
            (((Int.fdiv t TIME_SLICE % ((sortedParticipants users).length : Int)).toNat + j) %
              (sortedParticipants users).length) 0) := by
      simp only [decide_order, if_neg hne]
    rw [hmap, List.getD_eq_getElem?_getD,
      List.getElem?_eq_getElem (by simpa using hi), List.getElem_map, List.getElem_range]
    simp [List.getD_eq_getElem?_getD]
  · intro users' hset
    have hu' : users' ≠ [] := by
      intro hnil
      rw [hnil] at hset
      have := sortedParticipants_eq_of_toFinset_eq hset
      rw [(sortedParticipants_eq_nil_iff []).mpr rfl] at this
      exact hne this.symm
    have hsp : sortedParticipants users' = sortedParticipants users :=
      sortedParticipants_eq_of_toFinset_eq hset
    rw [decide_order_eq_rotate users' t hu', decide_order_eq_rotate users t h, hsp]

/-- Witness for C1 at `users = [2,1,2]`, `t = 61`: the participants are
`[1,2]`, `base = 1`, so the order is `[2,1]`. -/
theorem decide_order_is_rotation_witness :
    decide_order [2, 1, 2] 61 =
      (sortedParticipants [2, 1, 2]).rotate
        (Int.fdiv 61 TIME_SLICE % ((sortedParticipants [2, 1, 2]).length : Int)).toNat ∧
    (∀ i < (sortedParticipants [2, 1, 2]).length,
      (decide_order [2, 1, 2] 61).getD i 0 =
        (sortedParticipants [2, 1, 2]).getD
          (((Int.fdiv 61 TIME_SLICE % ((sortedParticipants [2, 1, 2]).length : Int)).toNat + i) %
            (sortedParticipants [2, 1, 2]).length) 0) ∧
    ∀ users' : List Int, users'.toFinset = ([2, 1, 2] : List Int).toFinset →
      decide_order users' 61 = decide_order [2, 1, 2] 61 :=
  decide_order_is_rotation [2, 1, 2] 61 (by decide)

/-- C5 --- sweeping the event time over `n` consecutive `TIME_SLICE` steps,
the first element of `_decide_order` traces out exactly the rotation of the
participant list starting at the base of `t`; in particular it is a
permutation of the participants, visiting each exactly once, cyclically in
sorted order. -/
theorem decide_order_sweep (users : List Int) (t : Int) (h : users ≠ []) :
    ((List.range (sortedParticipants users).length).map fun k : Nat =>
        (decide_order users (t + (k : Int) * TIME_SLICE)).headD 0) =
      (sortedParticipants users).rotate
        (Int.fdiv t TIME_SLICE % ((sortedParticipants users).length : Int)).toNat ∧
    List.Perm
      ((List.range (sortedParticipants users).length).map fun k : Nat =>
        (decide_order users (t + (k : Int) * TIME_SLICE)).headD 0)
      (sortedParticipants users) := by
  have hne : sortedParticipants users ≠ [] :=
    fun hnil => h ((sortedParticipants_eq_nil_iff users).mp hnil)
  have hn : 0 < (sortedParticipants users).length := List.length_pos.mpr hne
  have key : ((List.range (sortedParticipants users).length).map fun k : Nat =>
      (decide_order users (t + (k : Int) * TIME_SLICE)).headD 0) =
      (sortedParticipants users).rotate
        (Int.fdiv t TIME_SLICE % ((sortedParticipants users).length : Int)).toNat := by
    rw [← map_range_getD_rotate _ _ (base_lt t hn)]
    apply List.map_congr_left
    intro k hk
    have hk' : k < (sortedParticipants users).length := List.mem_range.mp hk
    rw [decide_order_eq_rotate users _ h, rotate_headD _ _ (base_lt _ hn), base_shift t k _ hn]
  exact ⟨key, key ▸ List.rotate_perm _ _⟩

/-- Witness for C5 at `users = [5,3]`, `t = 0`: the heads across `t = 0, 60`
are `[3, 5]`, a rotation (here: the identity rotation) of the participant
list. -/
theorem decide_order_sweep_witness :
    ((List.range (sortedParticipants [5, 3]).length).map fun k : Nat =>
        (decide_order [5, 3] ((0 : Int) + (k : Int) * TIME_SLICE)).headD 0) =
      (sortedParticipants [5, 3]).rotate
        (Int.fdiv 0 TIME_SLICE % ((sortedParticipants [5, 3]).length : Int)).toNat ∧
    List.Perm
      ((List.range (sortedParticipants [5, 3]).length).map fun k : Nat =>
        (decide_order [5, 3] ((0 : Int) + (k : Int) * TIME_SLICE)).headD 0)
      (sortedParticipants [5, 3]) :=
  decide_order_sweep [5, 3] 0 (by decide)

/-! ## Phase-6 lemmas -/

/-- If no feedback observation ever succeeds, phase 6 walks the whole order
once, giving each candidate exactly one turn in order, and returns `false`;
the trace is the full single sweep. -/
lemma phase6_no_feedback (f6 : Nat → FetchResp) (self : Int) (ord : List Int) (i : Nat)
    (h : ∀ j, has_feedback (f6 j) = false) :
    phase6 f6 self ord i =
      (false, (ord.enumFrom i).flatMap fun p =>
        (if p.2 = self then [Call.markConfirm p.1] else []) ++ [Call.fetchConfirm p.1]) := by
  induction ord generalizing i with
  | nil => simp [phase6]
  | cons c rest ih =>
    simp only [phase6, h i, Bool.false_eq_true, if_false, ih (i + 1),
      List.enumFrom_cons, List.flatMap_cons]

/-- At most one local participant can get a `true` verdict out of phase 6
when both walk the same order against the same observations. -/
lemma phase6_true_unique (f6 : Nat → FetchResp) (s₁ s₂ : Int) (ord : List Int) (i : Nat)
    (h₁ : (phase6 f6 s₁ ord i).1 = true) (h₂ : (phase6 f6 s₂ ord i).1 = true) : s₁ = s₂ := by
  induction ord generalizing i with
  | nil => simp [phase6] at h₁
  | cons c rest ih =>
    by_cases hf : has_feedback (f6 i) = true
    · simp only [phase6, hf, if_true, decide_eq_true_eq] at h₁ h₂
      rw [← h₁, ← h₂]
    · rw [Bool.not_eq_true] at hf
      simp only [phase6, hf, Bool.false_eq_true, if_false] at h₁ h₂
      exact ih (i + 1) h₁ h₂

/-! ## Concrete events and oracles used in witnesses and counterexamples -/

/-- A well-formed event: `message_id = 7`, `raw_message = {"time": 60}`,
`self_id = 1`.  Parses to the context `⟨7, 60, 1⟩`. -/
def evOk : Event := ⟨⟨.vint 7, some [("time", PyVal.vint 60)]⟩, .vint 1⟩

/-- Like `evOk` but for the participant with id `2`. -/
def evOk2 : Event := ⟨⟨.vint 7, some [("time", PyVal.vint 60)]⟩, .vint 2⟩

/-- An oracle whose every channel interaction raises. -/
def oracleAllErr : Oracle := ⟨.error (), .error (), .error (), fun _ => .error ()⟩

/-- An oracle where both fetches of the claim tag raise but the claim mark
succeeds. -/
def oracleFetchErr : Oracle := ⟨.error (), .ok (), .error (), fun _ => .error ()⟩

/-! ## C2 — failed phase-1 read -/

/-- C2 counterexample: on an oracle whose phase-1 read raises (and whose
phase-4 read raises as well), `compete` does not stop with `false` after
phase 1 — it marks the claim tag, proceeds through phase 4 and returns
`true`.  This refutes the claim that a failed initial read is terminal
`false` with no further phase. -/
theorem compete_fetch1_error_cex :
    oracleFetchErr.fetch1 = Except.error () ∧
    competeRun oracleFetchErr evOk =
      (true, [Call.fetchClaim1, Call.markClaim, Call.fetchClaim4]) :=
  ⟨rfl, by decide⟩

/-- C2 amended: a failed phase-1 read is treated exactly like observing an
empty participant set — the run continues into phase 2 with identical verdict
and trace. -/
theorem compete_fetch1_error_as_empty (o : Oracle) (e : Event) (u : Unit)
    (h : o.fetch1 = Except.error u) :
    competeRun o e = competeRun { o with fetch1 := Except.ok none } e := by
  cases hp : parse_event_context e with
  | none => simp [competeRun, hp]
  | some ctx => simp [competeRun, hp, h, fetch_users, parse_users]

/-- Witness for the amended C2. -/
theorem compete_fetch1_error_as_empty_witness :
    competeRun oracleFetchErr evOk =
      competeRun { oracleFetchErr with fetch1 := Except.ok none } evOk :=
  compete_fetch1_error_as_empty oracleFetchErr evOk () rfl

/-! ## C4 — phase-4 fallback -/

/-- C4 --- if the run reaches phase 2, the claim mark succeeds, and the
phase-4 read fails or yields no participants, `compete` returns `true` after
exactly the three claim-tag interactions: no order is computed and phase 6 is
never entered. -/
theorem compete_phase4_empty (o : Oracle) (e : Event) (c : ArbiterContext)
    (hp : parse_event_context e = some c)
    (h1 : fetch_users o.fetch1 = [])
    (h2 : o.mark2 = Except.ok ())
    (h4 : fetch_users o.fetch4 = []) :
    competeRun o e = (true, [Call.fetchClaim1, Call.markClaim, Call.fetchClaim4]) := by
  simp [competeRun, hp, h1, h2, h4]

/-- Witness for C4. -/
theorem compete_phase4_empty_witness :
    competeRun oracleFetchErr evOk =
      (true, [Call.fetchClaim1, Call.markClaim, Call.fetchClaim4]) :=
  compete_phase4_empty oracleFetchErr evOk ⟨7, 60, 1⟩ rfl rfl rfl rfl

/-! ## C6 — already-claimed short circuit -/

/-- C6 --- if the phase-1 read returns a non-empty participant set, `compete`
returns `false` and the whole run's channel interaction is that single read:
no mark of any tag is ever issued. -/
theorem compete_already_claimed (o : Oracle) (e : Event) (c : ArbiterContext)
    (hp : parse_event_context e = some c)
    (h1 : fetch_users o.fetch1 ≠ []) :
    competeRun o e = (false, [Call.fetchClaim1]) := by
  simp [competeRun, hp, h1]

/-- Witness for C6. -/
theorem compete_already_claimed_witness :
    competeRun { oracleAllErr with fetch1 := Except.ok (some (some [some (PyVal.vint 3)])) } evOk =
      (false, [Call.fetchClaim1]) :=
  compete_already_claimed _ evOk ⟨7, 60, 1⟩ rfl (by decide)

/-! ## C7 — exhaustion -/

/-- C7 --- if the run reaches phase 6 and every per-candidate observation of
the confirmation tag fails or is empty, the loop walks the entire order
exactly once — each candidate has exactly one turn, in order, never revisited
— and the verdict is `false`. -/
theorem compete_exhaustion (o : Oracle) (e : Event) (c : ArbiterContext)
    (hp : parse_event_context e = some c)
    (h1 : fetch_users o.fetch1 = [])
    (h2 : o.mark2 = Except.ok ())
    (h4 : fetch_users o.fetch4 ≠ [])
    (hfb : ∀ j, has_feedback (o.fetch6 j) = false) :
    competeRun o e =
      (false, [Call.fetchClaim1, Call.markClaim, Call.fetchClaim4] ++
        ((decide_order (fetch_users o.fetch4) c.msg_time).enumFrom 0).flatMap fun p =>
          (if p.2 = c.self_id then [Call.markConfirm p.1] else []) ++ [Call.fetchConfirm p.1]) := by
  have ho : decide_order (fetch_users o.fetch4) c.msg_time ≠ [] :=
    decide_order_ne_nil _ _ h4
  simp [competeRun, hp, h1, h2, h4, ho, phase6_no_feedback o.fetch6 c.self_id _ 0 hfb]

/-- Witness for C7: one other participant (id 3) claimed alongside us
(id 1), no confirmation is ever observed, so both candidates get one turn
each and the verdict is `false`. -/
theorem compete_exhaustion_witness :
    competeRun
      { oracleAllErr with
          mark2 := Except.ok (),
          fetch4 := Except.ok (some (some [some (PyVal.vint 3), some (PyVal.vint 1)])) } evOk =
      (false, [Call.fetchClaim1, Call.markClaim, Call.fetchClaim4] ++
        ((decide_order
            (fetch_users (Except.ok (some (some [some (PyVal.vint 3), some (PyVal.vint 1)]))))
            (60 : Int)).enumFrom 0).flatMap fun p =>
          (if p.2 = (1 : Int) then [Call.markConfirm p.1] else []) ++ [Call.fetchConfirm p.1]) :=
  compete_exhaustion _ evOk ⟨7, 60, 1⟩ rfl rfl rfl (by decide) (fun _ => rfl)

/-! ## C9 — total verdict -/

/-- C9 --- `compete` always returns one of the two verdicts, for every event
and every channel behaviour (including every read or write raising at any
phase); in particular the everything-fails oracle yields the `false`
verdict.  All channel failures are absorbed locally (`fetch_users`,
`has_feedback` and the two mark sites catch their exceptions), which is what
makes `compete` a total `Bool`-valued function of the oracle. -/
theorem compete_total_verdict :
    (∀ (o : Oracle) (e : Event), compete o e = true ∨ compete o e = false) ∧
    compete oracleAllErr evOk = false := by
  refine ⟨fun o e => ?_, by decide⟩
  cases compete o e
  · exact Or.inr rfl
  · exact Or.inl rfl

/-! ## C10 — non-empty orders and the unreachable phase-5 guard -/

/-- C10 --- `_decide_order` never returns an empty order on a non-empty user
list, and consequently the phase-5 defensive `if not order: return False`
branch of `compete` is unreachable: `competeRun` coincides with
`competeRunNoGuard`, the same state machine with that branch removed, on
every oracle and every event. -/
theorem decide_order_nonempty_guard_unreachable :
    (∀ (users : List Int) (t : Int), users ≠ [] → decide_order users t ≠ []) ∧
    ∀ (o : Oracle) (e : Event), competeRun o e = competeRunNoGuard o e := by
  refine ⟨decide_order_ne_nil, fun o e => ?_⟩
  cases hp : parse_event_context e with
  | none => simp [competeRun, competeRunNoGuard, hp]
  | some ctx =>
    by_cases h1 : fetch_users o.fetch1 = []
    · cases hm : o.mark2 with
      | error u => simp [competeRun, competeRunNoGuard, hp, h1, hm]
      | ok u =>
        by_cases h4 : fetch_users o.fetch4 = []
        · simp [competeRun, competeRunNoGuard, hp, h1, hm, h4]
        · have ho : decide_order (fetch_users o.fetch4) ctx.msg_time ≠ [] :=
            decide_order_ne_nil _ _ h4
          simp [competeRun, competeRunNoGuard, hp, h1, hm, h4, ho]
    · simp [competeRun, competeRunNoGuard, hp, h1]

/-- Witness for C10. -/
theorem decide_order_nonempty_guard_unreachable_witness :
    decide_order [3] 5 ≠ [] ∧
    competeRun oracleFetchErr evOk = competeRunNoGuard oracleFetchErr evOk :=
  ⟨decide_order_nonempty_guard_unreachable.1 [3] 5 (by decide),
   decide_order_nonempty_guard_unreachable.2 oracleFetchErr evOk⟩

/-! ## C3 — at most one winner -/

/-- C3 counterexample: two participants (ids 1 and 2) on the same event
(`msg_time = 60`) against one shared, perfectly reliable, linearizable
channel, under the interleaving in which participant 2's claim mark lands
only after participant 1 has already collected the participant set: both
`compete` runs terminate with verdict `true`, so "at most one participant
returns `true`" fails.  The schedule is: both do the phase-1 read (seeing no
claims), participant 1 then runs to completion (claims `{1}`, computes the
singleton order `[1]`, confirms, observes its confirmation, wins), and only
then participant 2's claim mark lands, after which participant 2 collects
`{1, 2}`, computes the order `[2, 1]` (base 1 at `msg_time = 60`), is itself
the first candidate, confirms, observes a confirmation, and also wins. -/
theorem two_winners_under_interleaving :
    ¬ winners (run 60 (initG [1, 2]) [0, 1, 0, 0, 0, 0, 1, 1, 1, 1]) ≤ 1 := by decide

/-- C3 amended: at most one participant returns `true` provided the
participants decide from synchronized channel observations: they see the
same phase-1 and phase-4 fetch results and the same per-candidate
confirmation observations (one shared `Oracle`), agree on the event time,
and the phase-4 read actually returns a non-empty participant set (so the
optimistic phase-4 `true` fallback is not taken).  Stated pairwise: two
distinct such participants cannot both win, hence among any number of them
at most one wins. -/
theorem compete_at_most_one_winner_sync (o : Oracle) (e₁ e₂ : Event)
    (c₁ c₂ : ArbiterContext)
    (hp₁ : parse_event_context e₁ = some c₁) (hp₂ : parse_event_context e₂ = some c₂)
    (ht : c₁.msg_time = c₂.msg_time) (hs : c₁.self_id ≠ c₂.self_id)
    (h4 : fetch_users o.fetch4 ≠ []) :
    ¬(compete o e₁ = true ∧ compete o e₂ = true) := by
  rintro ⟨v₁, v₂⟩
  by_cases h1 : fetch_users o.fetch1 = []
  · cases hm : o.mark2 with
    | error u => simp [compete, competeRun, hp₁, h1, hm] at v₁
    | ok u =>
      have ho : decide_order (fetch_users o.fetch4) c₁.msg_time ≠ [] :=
        decide_order_ne_nil _ _ h4
      have ho₂ : decide_order (fetch_users o.fetch4) c₂.msg_time ≠ [] := by
        rw [← ht]; exact ho
      simp [compete, competeRun, hp₁, h1, hm, h4, ho] at v₁
      simp [compete, competeRun, hp₂, h1, hm, h4, ho₂] at v₂
      rw [← ht] at v₂
      exact hs (phase6_true_unique o.fetch6 c₁.self_id c₂.self_id _ 0 v₁ v₂)
  · simp [compete, competeRun, hp₁, h1] at v₁

/-- Witness for the amended C3: same oracle (phase-4 set `{1, 2}`, feedback
observed immediately), participants 1 and 2. -/
theorem compete_at_most_one_winner_sync_witness :
    ¬(compete
        { fetch1 := Except.ok none, mark2 := Except.ok (),
          fetch4 := Except.ok (some (some [some (PyVal.vint 1), some (PyVal.vint 2)])),
          fetch6 := fun _ => Except.ok (some (some [some (PyVal.vint 1)])) } evOk = true ∧
      compete
        { fetch1 := Except.ok none, mark2 := Except.ok (),
          fetch4 := Except.ok (some (some [some (PyVal.vint 1), some (PyVal.vint 2)])),
          fetch6 := fun _ => Except.ok (some (some [some (PyVal.vint 1)])) } evOk2 = true) :=
  compete_at_most_one_winner_sync _ evOk evOk2 ⟨7, 60, 1⟩ ⟨7, 60, 2⟩ rfl rfl rfl
    (by decide) (by decide)

/-! ## C8 — context construction -/

/-- The rational `12.5`, in lowest terms. -/
def qHalf : Rat := Rat.mk' 25 2 (by decide) (by decide)

/-- An event whose `"time"` field is the float `12.5`. -/
def evFloat : Event := ⟨⟨.vint 7, some [("time", PyVal.vfloat qHalf)]⟩, .vint 9⟩

/-- C8 counterexample: the event `evFloat` carries the non-integer float
timestamp `12.5` (`qHalf`, denominator 2), yet `_parse_event_context`
succeeds, truncating the timestamp to `12`.  This refutes "the event
timestamp must be an integer for construction to succeed". -/
theorem parse_accepts_noninteger_time :
    (evFloat.message_obj.raw_message.getD []).lookup "time" = some (PyVal.vfloat qHalf) ∧
    qHalf.den = 2 ∧
    parse_event_context evFloat = some ⟨7, 12, 9⟩ :=
  ⟨rfl, rfl, by decide⟩

/-- Is a raw dict value acceptable as the `"time"` field, i.e. an `int` or a
`float` (`isinstance(msg_time, (int, float))`)? -/
def isNumericTime : Option PyVal → Bool
  | some (.vint _) => true
  | some (.vfloat _) => true
  | _ => false

/-- C8 amended: context construction succeeds exactly when the message id
and the local participant id are `int(...)`-convertible, the raw envelope is
a dict, and its `"time"` entry is numeric — an `int` or a `float` (a float
is accepted and truncated toward zero).  It fails whenever any of the three
inputs is absent or not of the required type. -/
theorem parse_event_context_isSome_iff (e : Event) :
    (parse_event_context e).isSome = true ↔
      ((pyInt e.message_obj.message_id).isSome = true ∧
       (pyInt e.self_id).isSome = true ∧
       ∃ raw, e.message_obj.raw_message = some raw ∧
         isNumericTime (raw.lookup "time") = true) := by
  unfold parse_event_context
  cases pyInt e.message_obj.message_id with
  | none => simp
  | some mid =>
    cases pyInt e.self_id with
    | none => simp
    | some sid =>
      cases hr : e.message_obj.raw_message with
      | none => simp [hr]
      | some raw =>
        cases hl : raw.lookup "time" with
        | none => simp [hr, hl, isNumericTime]
        | some v =>
          cases v <;> simp [hr, hl, isNumericTime]

/-- Witness for the amended C8 at the concrete event `evOk`. -/
theorem parse_event_context_isSome_iff_witness :
    (parse_event_context evOk).isSome = true ↔
      ((pyInt evOk.message_obj.message_id).isSome = true ∧
       (pyInt evOk.self_id).isSome = true ∧
       ∃ raw, evOk.message_obj.raw_message = some raw ∧
         isNumericTime (raw.lookup "time") = true) :=
  parse_event_context_isSome_iff evOk

end Arbiter
